import Mathlib

/-!
A verification development for the goofys core (src/internal/goofys.go and
src/internal/handles.go): a user-space filesystem projecting an S3-like
object store.  The Go functions relevant to the checked claims are embedded
as executable Lean definitions; byte buffers are represented by their byte
counts (no checked property inspects byte contents), and concurrent part
uploads are modelled by executing each spawned task at its spawn point,
which coincides with the real final state on every run in which all part
uploads succeed.
-/

namespace GoofysModel

/-- Error taxonomy of mapAwsError / fuse / syscall errors used by the core
(goofys.go mapAwsError, handles.go). -/
inductive OsError where
  | enoent
  | einval
  | enotempty
  | enotdir
  | eisdir
  | enotsup
  | other (code : Nat)
deriving DecidableEq

/-- One S3 API call, as issued by the core.  Bodies are represented by their
lengths; parts of a CompleteMultipartUpload carry (PartNumber, ETag). -/
inductive S3Event where
  | putObject (key : String) (bodyLen : Nat)
  | createMPU (key : String)
  | uploadPart (key : String) (part : Nat) (len : Nat)
  | completeMPU (key : String) (parts : List (Nat × Option Nat))
  | abortMPU (key : String)
  | listObjects (pfx : String)
  | headObject (key : String)
  | deleteObject (key : String)
  | copyObject (src : String) (dst : String)
  | uploadPartCopy (dst : String) (part : Nat)
deriving DecidableEq

/-- Modelled from the spec: §4.2 Buffer Pool.  The pool's fixed buffer chunk
size is 5 MiB (the buffer-pool source file is not part of src/; spec §4.2
fixes the chunk size and the semantics of Request/Copy used by the write
path). -/
def CHUNK : Nat := 5 * 1024 * 1024

/-- The write-mode state of handles.go FileHandle, together with the inode
size field it updates (fh.inode.Attributes.Size) and the inode's full name.
`bufLen = none` models `fh.buf == nil` (equivalently `cap(fh.buf) == 0`);
`etags i` models `fh.etags[i]` (the slot for part number `i+1`). -/
structure WFH where
  fullName : String
  dirty : Bool
  mpuId : Option Nat
  nextWriteOffset : Int
  lastPartId : Nat
  bufLen : Option Nat
  etags : Nat → Option Nat
  lastWriteError : Option OsError
  size : Nat

/-- The write loop of FileHandle.WriteFile (handles.go:456-485), fuelled for
structural recursion.  One iteration: request a buffer if absent (spec §4.2:
Request returns an empty buffer of capacity CHUNK), copy
min(capacity remaining, len data) bytes (spec §4.2: Copy appends up to the
remaining capacity), and if the buffer is full, wait for / lazily start the
multipart upload (waitForCreateMPU → initMPU, handles.go:326-359, which
allocates a fresh etag array and stores the upload id) and emit the next
part (mpuPart → mpuPartNoSpawn records the returned ETag in
etags[part-1]); the spawned part task is executed at its spawn point, with
`etagOf p` the ETag the backend returns for part `p`.  Returns the state and
the length of the remaining `data` slice at loop exit (the value `len(data)`
has in Go when the loop breaks).  The fuel-exhausted base case is
unreachable for the fuel chosen by `writeLoop`.  `emitPart` is the
buffer-full step of that loop: lazily initialize the multipart upload
(waitForCreateMPU on a handle with no upload id yet, which allocates the
fresh etag array), bump `lastPartId`, detach the buffer and record the
uploaded part's ETag in `etags[part-1]`. -/
def emitPart (etagOf : Nat → Nat) (fh : WFH) : WFH :=
  let fhI := if fh.mpuId.isNone
    then { fh with mpuId := some 1, etags := fun _ => none }
    else fh
  { fhI with
    lastPartId := fhI.lastPartId + 1,
    bufLen := none,
    etags := fun i =>
      if i = fhI.lastPartId then some (etagOf (fhI.lastPartId + 1)) else fhI.etags i }

def writeLoopFuel (etagOf : Nat → Nat) : Nat → WFH → Nat → WFH × Nat
  | 0, fh, dataLen => (fh, dataLen)
  | fuel + 1, fh, dataLen =>
    let bufLen := fh.bufLen.getD 0
    let nCopied := min (CHUNK - bufLen) dataLen
    let fh1 : WFH := { fh with
      nextWriteOffset := fh.nextWriteOffset + (nCopied : Int),
      bufLen := some (bufLen + nCopied) }
    let fh2 : WFH := if bufLen + nCopied = CHUNK then emitPart etagOf fh1 else fh1
    if nCopied = dataLen then (fh2, dataLen)
    else writeLoopFuel etagOf fuel fh2 (dataLen - nCopied)

/-- The write loop with enough fuel: each iteration after the first consumes
a full chunk, so `dataLen / CHUNK + 3` iterations always reach the break. -/
def writeLoop (etagOf : Nat → Nat) (fh : WFH) (dataLen : Nat) : WFH × Nat :=
  writeLoopFuel etagOf (dataLen / CHUNK + 3) fh dataLen

/-- FileHandle.WriteFile (handles.go:435-490): sticky-error check,
sequential-offset check (non-sequential writes poison the handle with
EINVAL), pool-handle acquisition at offset 0, the copy/upload loop, and the
final size update `fh.inode.Attributes.Size = uint64(offset +
int64(len(data)))`, where `data` is the re-sliced remainder at loop exit. -/
def WriteFile (etagOf : Nat → Nat) (fh : WFH) (offset : Int) (dataLen : Nat) :
    WFH × Option OsError :=
  match fh.lastWriteError with
  | some e => (fh, some e)
  | none =>
    if offset ≠ fh.nextWriteOffset then
      ({ fh with lastWriteError := some OsError.einval }, some OsError.einval)
    else
      let fh := if offset = 0 then { fh with dirty := true } else fh
      let r := writeLoop etagOf fh dataLen
      ({ r.1 with size := (offset + (r.2 : Int)).toNat }, none)

/-- Backend outcomes consumed by FlushFile: the small-file PutObject result,
the trailing UploadPart result, and the CompleteMultipartUpload result. -/
structure FlushS3 where
  putErr : Option OsError
  trailingErr : Option OsError
  completeErr : Option OsError
deriving DecidableEq

/-- FileHandle.flushSmallFile (handles.go:600-620): detach the current
buffer and PUT it (an absent buffer PUTs an empty body). -/
def flushSmallFile (o : FlushS3) (fh : WFH) : WFH × Option OsError × List S3Event :=
  let bodyLen := fh.bufLen.getD 0
  ({ fh with bufLen := none }, o.putErr, [S3Event.putObject fh.fullName bodyLen])

/-- Result of FlushFile: final handle state, returned error, S3 calls made. -/
structure FlushOut where
  fh : WFH
  err : Option OsError
  events : List S3Event

/-- FileHandle.FlushFile (handles.go:622-709).  Not-dirty handles return
immediately.  With no parts emitted it PUTs the buffer (flushSmallFile)
without consulting the sticky error.  Otherwise it waits for outstanding
part tasks (already accounted for in this model), surfaces the sticky
error, uploads the trailing partial buffer as part lastPartId+1 (recording
its ETag), and calls CompleteMultipartUpload with parts built from
etags[0..nParts-1] and part numbers 1..nParts.  The deferred cleanup
issues AbortMultipartUpload and clears the upload id whenever an error is
returned while an upload id is held, and always resets the write cursor,
part counter and dirty flag. -/
def FlushFile (etagOf : Nat → Nat) (o : FlushS3) (fh0 : WFH) : FlushOut :=
  if fh0.dirty = false then ⟨fh0, none, []⟩
  else
    let core : WFH × Option OsError × List S3Event :=
      if fh0.lastPartId = 0 then flushSmallFile o fh0
      else
        match fh0.lastWriteError with
        | some e => (fh0, some e, [])
        | none =>
          match fh0.mpuId with
          | none => (fh0, none, [])
          | some _ =>
            match fh0.bufLen with
            | some b =>
              let nParts := fh0.lastPartId + 1
              let ev1 := S3Event.uploadPart fh0.fullName nParts b
              match o.trailingErr with
              | some e => (fh0, some e, [ev1])
              | none =>
                let fh1 := { fh0 with
                  etags := fun i =>
                    if i = nParts - 1 then some (etagOf nParts) else fh0.etags i }
                let parts := (List.range nParts).map (fun i => (i + 1, fh1.etags i))
                let ev2 := S3Event.completeMPU fh1.fullName parts
                match o.completeErr with
                | some e => (fh1, some e, [ev1, ev2])
                | none => ({ fh1 with mpuId := none }, none, [ev1, ev2])
            | none =>
              let nParts := fh0.lastPartId
              let parts := (List.range nParts).map (fun i => (i + 1, fh0.etags i))
              let ev2 := S3Event.completeMPU fh0.fullName parts
              match o.completeErr with
              | some e => (fh0, some e, [ev2])
              | none => ({ fh0 with mpuId := none }, none, [ev2])
    let fh1 := core.1
    let err := core.2.1
    let evs := core.2.2
    let post : WFH × List S3Event :=
      if err.isSome && fh1.mpuId.isSome
      then ({ fh1 with mpuId := none }, evs ++ [S3Event.abortMPU fh1.fullName])
      else (fh1, evs)
    ⟨{ post.1 with nextWriteOffset := 0, lastPartId := 0, dirty := false }, err, post.2⟩

/-- The handle produced by Inode.Create (handles.go:193-222) for key `key`:
dirty with a fresh pool handle, size 0, nothing written yet. -/
def freshHandle (key : String) : WFH :=
  { fullName := key
    dirty := true
    mpuId := none
    nextWriteOffset := 0
    lastPartId := 0
    bufLen := none
    etags := fun _ => none
    lastWriteError := none
    size := 0 }

/-- Run a sequence of writes, each at the handle's current next-write
offset (sequential writes); `none` if any write returns an error. -/
def runWrites (etagOf : Nat → Nat) (fh : WFH) : List Nat → Option WFH
  | [] => some fh
  | w :: ws =>
    match WriteFile etagOf fh fh.nextWriteOffset w with
    | (fh', none) => runWrites etagOf fh' ws
    | (_, some _) => none

/-- Invariant of the write path: after Create and any number of successful
sequential writes, the handle is dirty and unpoisoned, holds the upload id
exactly when a part has been emitted, and `etags` records exactly the
backend ETag of each emitted part. -/
def WInv (etagOf : Nat → Nat) (key : String) (fh : WFH) : Prop :=
  fh.fullName = key ∧
  fh.dirty = true ∧
  fh.lastWriteError = none ∧
  fh.mpuId = (if fh.lastPartId = 0 then none else some 1) ∧
  ∀ i, fh.etags i = if i < fh.lastPartId then some (etagOf (i + 1)) else none

/-- A concrete backend ETag assignment used by concrete runs. -/
def etagSpec : Nat → Nat := fun p => 100 + p

/-- A flush backend where the PUT, the trailing part and the completion all
succeed. -/
def flushOk : FlushS3 := ⟨none, none, none⟩

/-- The handle state after `create("k")` followed by a single sequential
write of 12 MiB (two full 5 MiB parts emitted, 2 MiB left in the buffer). -/
def fh12MiB : WFH := (runWrites etagSpec (freshHandle "k") [12582912]).getD (freshHandle "k")

/-- A dirty handle that has emitted two parts and then been poisoned by a
sticky EINVAL (as a non-sequential write leaves it). -/
def poisonedFh : WFH :=
  { freshHandle "p" with
      lastPartId := 2
      mpuId := some 1
      lastWriteError := some OsError.einval }

/-- fuseops.InodeAttributes: size, link count, mode (reduced to the
directory bit, the only mode information the core computes), the four
timestamps, uid and gid.  Times are abstract instants (Nat). -/
structure AttrsM where
  size : Nat
  nlink : Nat
  isDir : Bool
  atime : Nat
  mtime : Nat
  ctime : Nat
  crtime : Nat
  uid : Nat
  gid : Nat
deriving DecidableEq

/-- FlagStorage.Uid of this mount. -/
def flagUid : Nat := 1000

/-- FlagStorage.Gid of this mount. -/
def flagGid : Nat := 1000

/-- The instant the filesystem was mounted (NewGoofys's `now`). -/
def mountTime : Nat := 0

/-- fs.rootAttrs (goofys.go:138-148): size 4096, nlink 2, DirMode|ModeDir,
mount-time stamps. -/
def rootAttrsM : AttrsM :=
  ⟨4096, 2, true, mountTime, mountTime, mountTime, mountTime, flagUid, flagGid⟩

/-- The attributes a file inode gets from a HEAD response or a listing
entry: backend size, nlink 1, FileMode, all four times = LastModified. -/
def fileAttrs (size mtime : Nat) : AttrsM :=
  ⟨size, 1, false, mtime, mtime, mtime, mtime, flagUid, flagGid⟩

/-- Association-list lookup (Go map read). -/
def findA {κ α : Type} [DecidableEq κ] (k : κ) : List (κ × α) → Option α
  | [] => none
  | p :: rest => if p.1 = k then some p.2 else findA k rest

/-- Association-list key removal (Go map delete). -/
def eraseA {κ α : Type} [DecidableEq κ] (k : κ) : List (κ × α) → List (κ × α)
  | [] => []
  | p :: rest => if p.1 = k then eraseA k rest else p :: eraseA k rest

/-- Association-list insert/overwrite (Go map write). -/
def insertA {κ α : Type} [DecidableEq κ] (k : κ) (v : α) (l : List (κ × α)) :
    List (κ × α) :=
  (k, v) :: eraseA k l

/-- Byte-slicing helpers of Go string indexing, on the character list of a
Lean string (all keys involved are ASCII, where Go's byte indexing and
character indexing agree). -/
def strLen (s : String) : Nat := s.toList.length

def strTake (s : String) (n : Nat) : String := String.mk (s.toList.take n)

def strDrop (s : String) (n : Nat) : String := String.mk (s.toList.drop n)

/-- Go's byte-wise string `<`, on character lists (ASCII keys). -/
def charListLt : List Char → List Char → Bool
  | [], [] => false
  | [], _ :: _ => true
  | _ :: _, [] => false
  | a :: as, b :: bs =>
    if a.toNat < b.toNat then true
    else if b.toNat < a.toNat then false
    else charListLt as bs

def strLtB (a b : String) : Bool := charListLt a.toList b.toList

/-- One object of an S3 ListObjects page (key, size, LastModified). -/
structure S3Obj where
  key : String
  size : Nat
  lastModified : Nat
deriving DecidableEq

/-- An S3 ListObjects response: common prefixes (with the trailing
delimiter), contents, truncation flag and continuation marker. -/
structure ListResp where
  commonPfxs : List String
  contents : List S3Obj
  isTruncated : Bool
  nextMarker : Option String
deriving DecidableEq

/-- isEmptyDir (handles.go:252-282) given the response of
LIST(prefix = fullName + "/", delimiter = "/", MaxKeys 2): returns
(isDir, err) where err ENOTEMPTY doubles as the not-empty classification. -/
def isEmptyDir (fullName : String) (resp : ListResp) : Bool × Option OsError :=
  let fullName2 := fullName ++ "/"
  if 0 < resp.commonPfxs.length ∨ 1 < resp.contents.length then
    (true, some OsError.enotempty)
  else if resp.contents.length = 1 then
    (true,
      if (resp.contents.headD ⟨"", 0, 0⟩).key ≠ fullName2
      then some OsError.enotempty else none)
  else (false, none)

/-- fuseutil.DirentType as used by the core. -/
inductive DirentType where
  | dir
  | file
deriving DecidableEq

/-- fuseutil.Dirent: name, type, inode number and 1-based offset. -/
structure Dirent where
  name : String
  dtype : DirentType
  inode : Nat
  offset : Nat
deriving DecidableEq

/-- makeDirEntry (handles.go:789-791): inode number RootInodeID+1 = 2,
offset filled in later. -/
def makeDirEntry (name : String) (t : DirentType) : Dirent :=
  ⟨name, t, 2, 0⟩

/-- Insertion into a name-ascending dirent list. -/
def insertSorted (d : Dirent) : List Dirent → List Dirent
  | [] => [d]
  | e :: es => if strLtB d.name e.name then d :: e :: es else e :: insertSorted d es

/-- sort.Sort(sortedDirents(...)) (handles.go:782-787, 882): sort by name
ascending. -/
def sortDirents (l : List Dirent) : List Dirent := l.foldr insertSorted []

/-- DirHandle (handles.go:60-68).  `entries = none` models the nil slice
(which forces a fetch); `baseOffset` stays non-negative on every kernel-
driven enumeration, so it is a Nat. -/
structure DirHandleM where
  fullName : String
  entries : Option (List Dirent)
  nameToEntry : List (String × AttrsM)
  marker : Option String
  baseOffset : Nat
deriving DecidableEq

/-- Result of one DirHandle.ReadDir call: a panic (negative index or the
5000-entry safety limit), a backend/EINVAL error, end of directory, or one
dirent together with the updated handle. -/
inductive RDResult where
  | panicked
  | errored (e : OsError)
  | endOfDir (dh : DirHandleM)
  | entry (dh : DirHandleM) (d : Dirent)
deriving DecidableEq

/-- Build one listing page (handles.go:851-896): common prefixes become
directory dirents (strip the trailing delimiter, then the query prefix) and
record root attributes in NameToEntry; contents become file dirents (strip
the prefix; a content whose stripped name is empty — the directory marker
blob — is skipped) and record backend attributes. -/
def fetchEntries (rootAttrs : AttrsM) (pfx : String) (resp : ListResp)
    (nte : List (String × AttrsM)) : List Dirent × List (String × AttrsM) :=
  let step1 := resp.commonPfxs.foldl
    (fun (acc : List Dirent × List (String × AttrsM)) p =>
      let dirName := strDrop (strTake p (strLen p - 1)) (strLen pfx)
      (acc.1 ++ [makeDirEntry dirName DirentType.dir], insertA dirName rootAttrs acc.2))
    ([], nte)
  resp.contents.foldl
    (fun (acc : List Dirent × List (String × AttrsM)) obj =>
      let baseName := strDrop obj.key (strLen pfx)
      if strLen baseName = 0 then acc
      else (acc.1 ++ [makeDirEntry baseName DirentType.file],
        insertA baseName (fileAttrs obj.size obj.lastModified) acc.2))
    step1

/-- DirHandle.ReadDir (handles.go:793-906).  Offset 0 resets the page and
returns the synthetic `.` (entry offset 1, recording root attributes under
"."); offset 1 returns `..` (entry offset 2).  Otherwise
i = offset - BaseOffset - 2 (panic if negative); if i runs past the current
page and a continuation marker exists, the page is discarded and BaseOffset
advanced; i > 5000 panics; a missing page is fetched via
LIST(prefix, delimiter "/", marker), sorted by name, and per-entry offsets
patched to index + BaseOffset + 3; then i = len means end of directory,
i > len is EINVAL, otherwise entries[i] is returned. -/
def ReadDir (rootAttrs : AttrsM) (listFn : Option String → Except OsError ListResp)
    (dh0 : DirHandleM) (offset : Nat) : RDResult :=
  let dh := if offset = 0 then { dh0 with entries := none } else dh0
  if offset = 0 then
    RDResult.entry { dh with nameToEntry := insertA "." rootAttrs dh.nameToEntry }
      { makeDirEntry "." DirentType.dir with offset := 1 }
  else if offset = 1 then
    RDResult.entry { dh with nameToEntry := insertA ".." rootAttrs dh.nameToEntry }
      { makeDirEntry ".." DirentType.dir with offset := 2 }
  else if (offset : Int) - (dh.baseOffset : Int) - 2 < 0 then RDResult.panicked
  else
    let i0 := offset - dh.baseOffset - 2
    let st : DirHandleM × Nat :=
      if (dh.entries.getD []).length ≤ i0 ∧ dh.marker.isSome
      then ({ dh with entries := none, baseOffset := dh.baseOffset + i0 }, 0)
      else (dh, i0)
    let dh1 := st.1
    let i := st.2
    if 5000 < i then RDResult.panicked
    else
      let paged : Except OsError (DirHandleM × List Dirent) :=
        match dh1.entries with
        | some es => Except.ok (dh1, es)
        | none =>
          let pfx := if strLen dh1.fullName ≠ 0 then dh1.fullName ++ "/" else dh1.fullName
          match listFn dh1.marker with
          | Except.error e => Except.error e
          | Except.ok resp =>
            let fe := fetchEntries rootAttrs pfx resp dh1.nameToEntry
            let sorted := sortDirents fe.1
            let es := sorted.enum.map
              (fun p => { p.2 with offset := p.1 + dh1.baseOffset + 3 })
            Except.ok
              ({ dh1 with
                  entries := some es
                  nameToEntry := fe.2
                  marker := if resp.isTruncated then resp.nextMarker else none }, es)
      match paged with
      | Except.error e => RDResult.errored e
      | Except.ok (dh2, es) =>
        if i = es.length then RDResult.endOfDir dh2
        else if es.length < i then RDResult.errored OsError.einval
        else RDResult.entry dh2 (es.getD i (makeDirEntry "" DirentType.file))

/-- The enumeration loop of Goofys.ReadDir (goofys.go:613-630): call
DirHandle.ReadDir at op.Offset, op.Offset+1, ... collecting (name, offset)
of each dirent until nil (the reply buffer is taken as unbounded). -/
def readDirSeq (rootAttrs : AttrsM) (listFn : Option String → Except OsError ListResp) :
    Nat → DirHandleM → Nat → List (String × Nat)
  | 0, _, _ => []
  | fuel + 1, dh, off =>
    match ReadDir rootAttrs listFn dh off with
    | RDResult.entry dh' d => (d.name, d.offset) :: readDirSeq rootAttrs listFn fuel dh' (off + 1)
    | _ => []

/-- NewDirHandle for the directory with full name `d` (no page, no marker). -/
def dhD : DirHandleM := ⟨"d", none, [], none, 0⟩

/-- The LIST backend of a bucket holding exactly {d/, d/a, d/b}, queried
with prefix "d/" and delimiter "/". -/
def listBucketD : Option String → Except OsError ListResp :=
  fun _ => Except.ok ⟨[], [⟨"d/", 0, 10⟩, ⟨"d/a", 1, 11⟩, ⟨"d/b", 2, 12⟩], false, none⟩

/-- The inode record built by NewInode (handles.go:47-52) before the
filesystem assigns an id: name, full name, attributes, refcount 1. -/
structure InodeCore where
  name : String
  fullName : String
  attrs : AttrsM
  refcnt : Nat
deriving DecidableEq

/-- The file inode LookUpInodeMaybeDir builds from a HEAD response
(goofys.go:473-484): backend size, LastModified timestamps. -/
def newFileInode (name fullName : String) (size mtime : Nat) : InodeCore :=
  ⟨name, fullName, fileAttrs size mtime, 1⟩

/-- The directory inode LookUpInodeMaybeDir builds from a non-empty LIST
(goofys.go:499-500): root-default attributes. -/
def newDirInode (name fullName : String) : InodeCore :=
  ⟨name, fullName, rootAttrsM, 1⟩

/-- One channel completion consumed by LookUpInodeMaybeDir's select loop
(goofys.go:469-513): the HEAD response, the mapped HEAD error, the LIST
response, or the mapped LIST error.  Each of the two request goroutines
sends exactly one message, so a run sees at most one object-side and one
dir-side completion, in either order. -/
inductive LookupEvent where
  | objectResp (size : Nat) (mtime : Nat)
  | objectErr (e : OsError)
  | dirResp (resp : ListResp)
  | dirErr (e : OsError)
deriving DecidableEq

/-- The select loop's state: the `notFound` flag and the function-scoped
named return `err` (which non-ENOENT completions assign and leave set). -/
structure LookState where
  notFound : Bool
  err : Option OsError
deriving DecidableEq

/-- One iteration of LookUpInodeMaybeDir's select loop: either continue
with an updated state (inl) or return (inode?, err?) (inr), exactly as the
four cases at goofys.go:470-512 do — note that a HEAD success or non-empty
LIST returns the inode together with whatever the named `err` holds, and a
non-ENOENT error is recorded in `err` and otherwise ignored (the "XXX
retry" branches). -/
def lookupStep (name fullName : String) (s : LookState) :
    LookupEvent → LookState ⊕ (Option InodeCore × Option OsError)
  | LookupEvent.objectResp size mtime =>
    Sum.inr (some (newFileInode name fullName size mtime), s.err)
  | LookupEvent.objectErr e =>
    if e = OsError.enoent then
      if s.notFound then Sum.inr (none, some OsError.enoent)
      else Sum.inl { notFound := true, err := none }
    else Sum.inl { s with err := some e }
  | LookupEvent.dirResp resp =>
    if resp.commonPfxs.length ≠ 0 ∨ resp.contents.length ≠ 0 then
      Sum.inr (some (newDirInode name fullName), s.err)
    else if s.notFound then Sum.inr (none, some OsError.enoent)
    else Sum.inl { s with notFound := true }
  | LookupEvent.dirErr e => Sum.inl { s with err := some e }

/-- What a run of LookUpInodeMaybeDir produces on a given completion
sequence: a return value, or still blocked in select when the sequence is
exhausted. -/
inductive LookOutcome where
  | returned (ino : Option InodeCore) (err : Option OsError)
  | pending (s : LookState)
deriving DecidableEq

def runLookupFrom (name fullName : String) : LookState → List LookupEvent → LookOutcome
  | s, [] => LookOutcome.pending s
  | s, e :: evs =>
    match lookupStep name fullName s e with
    | Sum.inl s2 => runLookupFrom name fullName s2 evs
    | Sum.inr r => LookOutcome.returned r.1 r.2

/-- LookUpInodeMaybeDir (goofys.go:458-514) run on a completion sequence,
from the initial state (notFound = false, err = nil). -/
def runLookup (name fullName : String) (evs : List LookupEvent) : LookOutcome :=
  runLookupFrom name fullName ⟨false, none⟩ evs

/-- Does the event come from the HEAD goroutine (objectChan/errObjectChan)? -/
def isObjectEvent : LookupEvent → Bool
  | LookupEvent.objectResp _ _ => true
  | LookupEvent.objectErr _ => true
  | _ => false

/-- Does the event come from the LIST goroutine (dirChan/errDirChan)? -/
def isDirEvent : LookupEvent → Bool
  | LookupEvent.dirResp _ => true
  | LookupEvent.dirErr _ => true
  | _ => false

/-- Backend responses consumed by Inode.Rename and the server-side copy
helpers: the two classification LISTs, the HEAD of the source (for files,
size -1), the single CopyObject result, and for copies above 5 GiB the
CreateMultipartUpload result, per-part UploadPartCopy results and ETags,
and the CompleteMultipartUpload result; finally the DeleteObject result. -/
structure RenameS3 where
  listFrom : Except OsError ListResp
  listTo : Except OsError ListResp
  headFrom : Except OsError Nat
  copyErr : Option OsError
  mpuCreate : Except OsError Nat
  partCopyErr : Nat → Option OsError
  partCopyEtag : Nat → Nat
  completeErr : Option OsError
  deleteErr : Option OsError

/-- The 5 GiB server-side copy part size (goofys.go:335,347). -/
def COPY_PART_SIZE : Int := 5 * 1024 * 1024 * 1024

/-- sizeToParts (goofys.go:334-342). -/
def sizeToParts (size : Int) : Nat :=
  let n := size / COPY_PART_SIZE
  (if size % COPY_PART_SIZE ≠ 0 then n + 1 else n).toNat

/-- The UploadPartCopy fan-out of mpuCopyParts (goofys.go:344-363),
executed in part order; a failing part overwrites the shared error slot
(goofys.go:326), so the last failure wins. -/
def mpuCopyPartsAux (o : RenameS3) (dst : String) :
    Nat → Nat → Option OsError → Option OsError × List S3Event
  | 0, _, err => (err, [])
  | n + 1, part, err =>
    let err2 := match o.partCopyErr part with
      | some e => some e
      | none => err
    let r := mpuCopyPartsAux o dst n (part + 1) err2
    (r.1, S3Event.uploadPartCopy dst part :: r.2)

def mpuCopyParts (o : RenameS3) (nParts : Nat) (dst : String) :
    Option OsError × List S3Event :=
  mpuCopyPartsAux o dst nParts 1 none

/-- copyObjectMultipart (goofys.go:365-417), as called by Rename with an
empty upload id: CreateMultipartUpload on the destination, UploadPartCopy
per 5 GiB range, then CompleteMultipartUpload with the collected ETags. -/
def copyObjectMultipart (o : RenameS3) (size : Int) (dst : String) :
    Option OsError × List S3Event :=
  let nParts := sizeToParts size
  match o.mpuCreate with
  | Except.error e => (some e, [S3Event.createMPU dst])
  | Except.ok _ =>
    let pc := mpuCopyParts o nParts dst
    match pc.1 with
    | some e => (some e, S3Event.createMPU dst :: pc.2)
    | none =>
      let parts := (List.range nParts).map (fun i => (i + 1, some (o.partCopyEtag (i + 1))))
      match o.completeErr with
      | some e => (some e, S3Event.createMPU dst :: pc.2 ++ [S3Event.completeMPU dst parts])
      | none => (none, S3Event.createMPU dst :: pc.2 ++ [S3Event.completeMPU dst parts])

/-- copyObjectMaybeMultipart (goofys.go:419-449): a size of -1 HEADs the
source first; sizes above 5 GiB go through the server-side multipart copy,
the rest through a single CopyObject (with source key prefixed by the
bucket). -/
def copyObjectMaybeMultipart (o : RenameS3) (bucket : String) (size0 : Int)
    (src dst : String) : Option OsError × List S3Event :=
  match (if size0 = -1 then
      match o.headFrom with
      | Except.error e => Except.error e
      | Except.ok n => Except.ok ((n : Int), [S3Event.headObject src])
    else Except.ok (size0, ([] : List S3Event))) with
  | Except.error e => (some e, [S3Event.headObject src])
  | Except.ok sz =>
    let src2 := bucket ++ "/" ++ src
    if COPY_PART_SIZE < sz.1 then
      let r := copyObjectMultipart o sz.1 dst
      (r.1, sz.2 ++ r.2)
    else
      (o.copyErr, sz.2 ++ [S3Event.copyObject src2 dst])

/-- Inode.Rename (handles.go:711-767) on the full names of the source and
destination: classify the source with isEmptyDir (returning its error,
including ENOTEMPTY for a non-empty source directory), classify the
destination, reject directory/file mismatches, then server-side copy
(directories use size 0 and slash-suffixed keys, files size -1), and only
after a successful copy DELETE the source. -/
def Rename (o : RenameS3) (bucket : String) (fromName toName : String) :
    Option OsError × List S3Event :=
  let evF := S3Event.listObjects (fromName ++ "/")
  match o.listFrom with
  | Except.error e => (some e, [evF])
  | Except.ok respF =>
    let cF := isEmptyDir fromName respF
    match cF.2 with
    | some e => (some e, [evF])
    | none =>
      let evT := S3Event.listObjects (toName ++ "/")
      match o.listTo with
      | Except.error e => (some e, [evF, evT])
      | Except.ok respT =>
        let cT := isEmptyDir toName respT
        match cT.2 with
        | some e => (some e, [evF, evT])
        | none =>
          if cF.1 && !cT.1 then (some OsError.enotdir, [evF, evT])
          else if !cF.1 && cT.1 then (some OsError.eisdir, [evF, evT])
          else
            let size : Int := if cF.1 then 0 else -1
            let f2 := if cF.1 then fromName ++ "/" else fromName
            let t2 := if cF.1 then toName ++ "/" else toName
            let cp := copyObjectMaybeMultipart o bucket size f2 t2
            match cp.1 with
            | some e => (some e, evF :: evT :: cp.2)
            | none => (o.deleteErr, evF :: evT :: cp.2 ++ [S3Event.deleteObject f2])

/-- An S3 call that mutates the bucket (everything except LIST and HEAD). -/
def isMutation : S3Event → Bool
  | S3Event.listObjects _ => false
  | S3Event.headObject _ => false
  | _ => true

/-- A rename backend where both classifications, the copy and the delete
succeed: source "a" is a plain object of size 3, destination "c" absent. -/
def renameOkOracle : RenameS3 :=
  { listFrom := Except.ok ⟨[], [], false, none⟩
    listTo := Except.ok ⟨[], [], false, none⟩
    headFrom := Except.ok 3
    copyErr := none
    mpuCreate := Except.ok 7
    partCopyErr := fun _ => none
    partCopyEtag := fun p => p
    completeErr := none
    deleteErr := none }

/-- A live inode as stored in the filesystem tables (Inode with its
assigned Id, handles.go:35-45). -/
structure InodeM where
  id : Nat
  name : String
  fullName : String
  attrs : AttrsM
  refcnt : Nat
deriving DecidableEq

/-- fuseops.RootInodeID. -/
def ROOT_ID : Nat := 1

/-- The filesystem tables relevant to inode identity (goofys.go:68-80):
the inode-ID counter, the ID index `inodes`, and the full-name index
`inodesCache` (which stores which live inode a full name resolves to). -/
structure FS where
  nextInodeID : Nat
  inodes : List (Nat × InodeM)
  inodesCache : List (String × Nat)
deriving DecidableEq

/-- The tables of a fresh mount (NewGoofys, goofys.go:152-159): only the
root inode, next id ROOT_ID + 1, empty full-name cache. -/
def freshFS : FS :=
  { nextInodeID := 2
    inodes := [(1, ⟨1, "", "", rootAttrsM, 1⟩)]
    inodesCache := [] }

/-- Inode.getChildName (handles.go:150-156). -/
def getChildName (parent : InodeM) (name : String) : String :=
  if parent.id = ROOT_ID then name else parent.fullName ++ "/" ++ name

/-- Inode.DeRef (handles.go:158-171): panics (none) when n exceeds the
refcount; otherwise decrements and reports whether the count reached 0. -/
def DeRef (ino : InodeM) (n : Nat) : Option (InodeM × Bool) :=
  if ino.refcnt < n then none
  else
    let ino2 := { ino with refcnt := ino.refcnt - n }
    some (ino2, ino2.refcnt == 0)

/-- Goofys.ForgetInode (goofys.go:552-571): resolve the id (panic — none —
if absent), DeRef (propagating its panic), and when the inode went stale
drop it from both the ID index and the full-name index. -/
def ForgetInode (fs : FS) (id n : Nat) : Option FS :=
  match findA id fs.inodes with
  | none => none
  | some ino =>
    match DeRef ino n with
    | none => none
    | some r =>
      if r.2 then
        some { fs with
          inodes := eraseA id fs.inodes
          inodesCache := eraseA r.1.fullName fs.inodesCache }
      else some { fs with inodes := insertA id r.1 fs.inodes }

/-- Goofys.MkDir (goofys.go:761-790) with Inode.MkDir (handles.go:224-250),
`putRes` being the PutObject result for the marker object: on success a new
inode with full name `childName + "/"` and root-default attributes is
allocated the next id and inserted into the ID index — and only the ID
index: unlike CreateFile (goofys.go:740-741), MkDir does not touch
inodesCache. -/
def MkDirOp (fs : FS) (parentId : Nat) (name : String) (putRes : Option OsError) :
    Option (Except OsError (FS × Nat)) :=
  match findA parentId fs.inodes with
  | none => none
  | some parent =>
    let fullName := getChildName parent name ++ "/"
    match putRes with
    | some e => some (Except.error e)
    | none =>
      let id := fs.nextInodeID
      let ino : InodeM := ⟨id, name, fullName, rootAttrsM, 1⟩
      some (Except.ok
        ({ fs with
            nextInodeID := id + 1
            inodes := insertA id ino fs.inodes }, id))

/-- Goofys.LookUpInode (goofys.go:516-549) with Inode.LookUp
(handles.go:134-148): a hit in `inodesCache` Refs the cached inode and
returns its id; otherwise the open-dir-handle NameToEntry maps are
consulted (`dhEntries`, the union over the parent's open handles; a hit
synthesizes a child inode with those attributes and Refs it, handles.go:
111-132); otherwise LookUpInodeMaybeDir runs on the completion sequence
`evs`; the resolved inode is assigned the next id and inserted into both
indices.  A run that blocks (pending) or hits a missing table entry is
`none`. -/
def LookUpInodeOp (fs : FS) (parentId : Nat) (name : String)
    (dhEntries : List (String × AttrsM)) (evs : List LookupEvent) :
    Option (Except OsError (FS × Nat)) :=
  match findA parentId fs.inodes with
  | none => none
  | some parent =>
    let childName := getChildName parent name
    match findA childName fs.inodesCache with
    | some id =>
      match findA id fs.inodes with
      | none => none
      | some ino =>
        some (Except.ok
          ({ fs with inodes := insertA id { ino with refcnt := ino.refcnt + 1 } fs.inodes },
            id))
    | none =>
      let resolved : Option (Except OsError InodeCore) :=
        match findA name dhEntries with
        | some attrs => some (Except.ok ⟨name, childName, attrs, 2⟩)
        | none =>
          match runLookup name childName evs with
          | LookOutcome.pending _ => none
          | LookOutcome.returned ino err =>
            match err with
            | some e => some (Except.error e)
            | none =>
              match ino with
              | none => none
              | some core => some (Except.ok core)
      match resolved with
      | none => none
      | some (Except.error e) => some (Except.error e)
      | some (Except.ok core) =>
        let id := fs.nextInodeID
        let ino : InodeM := ⟨id, core.name, core.fullName, core.attrs, core.refcnt⟩
        some (Except.ok
          ({ fs with
              nextInodeID := id + 1
              inodes := insertA id ino fs.inodes
              inodesCache := insertA core.fullName id fs.inodesCache }, id))

/-- The tables after MkDir(root, "d") on a fresh mount (marker PUT ok). -/
def c5fs1 : FS :=
  match MkDirOp freshFS 1 "d" none with
  | some (Except.ok r) => r.1
  | _ => freshFS

/-- The completions LookUpInodeMaybeDir("d", "d") sees over a bucket whose
only key is the marker "d/": the LIST under "d/" comes back non-empty. -/
def c5Events : List LookupEvent :=
  [LookupEvent.dirResp ⟨[], [⟨"d/", 0, 10⟩], false, none⟩]

/-- The tables after the subsequent LookUpInode(root, "d"). -/
def c5fs2 : FS :=
  match LookUpInodeOp c5fs1 1 "d" [] c5Events with
  | some (Except.ok r) => r.1
  | _ => c5fs1

-- ===========================================================================
-- Lemmas and theorems
-- ===========================================================================

lemma emitPart_inv (etagOf : Nat → Nat) (key : String) (fh : WFH)
    (h : WInv etagOf key fh) : WInv etagOf key (emitPart etagOf fh) := by
  obtain ⟨hname, hdirty, herr, hmpu, hetags⟩ := h
  by_cases hb : fh.mpuId = none
  · have hlp : fh.lastPartId = 0 := by
      by_contra hne
      rw [hmpu, if_neg hne] at hb
      exact Option.some_ne_none 1 hb
    have he : emitPart etagOf fh =
        { fh with
          mpuId := some 1,
          lastPartId := fh.lastPartId + 1,
          bufLen := none,
          etags := fun i =>
            if i = fh.lastPartId then some (etagOf (fh.lastPartId + 1)) else none } := by
      simp [emitPart, hb]
    rw [he]
    refine ⟨hname, hdirty, herr, by simp, ?_⟩
    intro i
    show (if i = fh.lastPartId then some (etagOf (fh.lastPartId + 1)) else none) =
      if i < fh.lastPartId + 1 then some (etagOf (i + 1)) else none
    rw [hlp]
    by_cases hi : i = 0
    · simp [hi]
    · have h1 : ¬ i < 0 + 1 := by omega
      simp [hi, h1]
  · have hlp : fh.lastPartId ≠ 0 := by
      intro h0
      rw [hmpu, if_pos h0] at hb
      exact hb rfl
    have hm : fh.mpuId = some 1 := by rw [hmpu, if_neg hlp]
    have he : emitPart etagOf fh =
        { fh with
          lastPartId := fh.lastPartId + 1,
          bufLen := none,
          etags := fun i =>
            if i = fh.lastPartId then some (etagOf (fh.lastPartId + 1)) else fh.etags i } := by
      simp [emitPart, hm]
    rw [he]
    refine ⟨hname, hdirty, herr, by simp [hm], ?_⟩
    intro i
    show (if i = fh.lastPartId then some (etagOf (fh.lastPartId + 1)) else fh.etags i) =
      if i < fh.lastPartId + 1 then some (etagOf (i + 1)) else none
    by_cases hi : i = fh.lastPartId
    · simp [hi]
    · rw [if_neg hi, hetags i]
      by_cases hlt : i < fh.lastPartId
      · simp [hlt, Nat.lt_succ_of_lt hlt]
      · have h2 : ¬ i < fh.lastPartId + 1 := by omega
        simp [hlt, h2]

lemma writeLoopFuel_inv (etagOf : Nat → Nat) (key : String) :
    ∀ (fuel : Nat) (fh : WFH) (dataLen : Nat), WInv etagOf key fh →
      WInv etagOf key (writeLoopFuel etagOf fuel fh dataLen).1 := by
  intro fuel
  induction fuel with
  | zero => intro fh dataLen h; exact h
  | succ n ih =>
    intro fh dataLen h
    simp only [writeLoopFuel]
    split
    · split
      · exact emitPart_inv etagOf key _ h
      · exact h
    · split
      · exact ih _ _ (emitPart_inv etagOf key _ h)
      · exact ih _ _ h

lemma writeLoop_inv (etagOf : Nat → Nat) (key : String) (fh : WFH) (dataLen : Nat)
    (h : WInv etagOf key fh) : WInv etagOf key (writeLoop etagOf fh dataLen).1 :=
  writeLoopFuel_inv etagOf key _ fh dataLen h

lemma writeFile_inv (etagOf : Nat → Nat) (key : String) (fh fh' : WFH)
    (offset : Int) (dataLen : Nat) (hInv : WInv etagOf key fh)
    (h : WriteFile etagOf fh offset dataLen = (fh', none)) : WInv etagOf key fh' := by
  obtain ⟨hname, hdirty, herr, hmpu, hetags⟩ := hInv
  simp only [WriteFile, herr] at h
  by_cases hoff : offset = fh.nextWriteOffset
  · simp only [hoff, ne_eq, not_true_eq_false, if_false] at h
    have hD : WInv etagOf key
        (if fh.nextWriteOffset = 0
          then { fh with dirty := true, lastWriteError := none } else fh) := by
      split
      · exact ⟨hname, rfl, rfl, hmpu, hetags⟩
      · exact ⟨hname, hdirty, herr, hmpu, hetags⟩
    have hw := writeLoop_inv etagOf key _ dataLen hD
    injection h with h1 h2
    exact h1 ▸ hw
  · rw [if_pos hoff] at h
    injection h with h1 h2
    exact absurd h2 (by simp)

lemma runWrites_inv (etagOf : Nat → Nat) (key : String) :
    ∀ (ws : List Nat) (fh fh' : WFH), WInv etagOf key fh →
      runWrites etagOf fh ws = some fh' → WInv etagOf key fh' := by
  intro ws
  induction ws with
  | nil => intro fh fh' h hrun; simp only [runWrites, Option.some.injEq] at hrun; exact hrun ▸ h
  | cons w ws ih =>
    intro fh fh' h hrun
    simp only [runWrites] at hrun
    rcases hw : WriteFile etagOf fh fh.nextWriteOffset w with ⟨fh1, err⟩
    rw [hw] at hrun
    cases err with
    | none => exact ih fh1 fh' (writeFile_inv etagOf key fh fh1 _ _ h hw) hrun
    | some e => simp at hrun

lemma freshHandle_inv (etagOf : Nat → Nat) (key : String) :
    WInv etagOf key (freshHandle key) := by
  refine ⟨rfl, rfl, rfl, rfl, ?_⟩
  intro i
  simp [freshHandle]


lemma flushFile_mpu_nobuf (etagOf : Nat → Nat) (o : FlushS3) (fh : WFH)
    (hdirty : fh.dirty = true) (hparts : fh.lastPartId ≠ 0)
    (herr : fh.lastWriteError = none) (hm : fh.mpuId = some 1)
    (hbuf : fh.bufLen = none) :
    FlushFile etagOf o fh =
      (let parts := (List.range fh.lastPartId).map (fun i => (i + 1, fh.etags i))
      let ev2 := S3Event.completeMPU fh.fullName parts
      match o.completeErr with
      | some e =>
        ⟨{ fh with
            mpuId := none
            nextWriteOffset := 0
            lastPartId := 0
            dirty := false },
          some e, [ev2, S3Event.abortMPU fh.fullName]⟩
      | none =>
        ⟨{ fh with
            mpuId := none
            nextWriteOffset := 0
            lastPartId := 0
            dirty := false },
          none, [ev2]⟩) := by
  cases hce : o.completeErr with
  | some e => simp [FlushFile, hdirty, hparts, herr, hm, hbuf, hce]
  | none => simp [FlushFile, hdirty, hparts, herr, hm, hbuf, hce]

lemma flushFile_mpu_buf (etagOf : Nat → Nat) (o : FlushS3) (fh : WFH) (b : Nat)
    (hdirty : fh.dirty = true) (hparts : fh.lastPartId ≠ 0)
    (herr : fh.lastWriteError = none) (hm : fh.mpuId = some 1)
    (hbuf : fh.bufLen = some b) :
    FlushFile etagOf o fh =
      (let nParts := fh.lastPartId + 1
      let ev1 := S3Event.uploadPart fh.fullName nParts b
      match o.trailingErr with
      | some e =>
        ⟨{ fh with
            mpuId := none
            nextWriteOffset := 0
            lastPartId := 0
            dirty := false },
          some e, [ev1, S3Event.abortMPU fh.fullName]⟩
      | none =>
        let etags2 := fun i =>
          if i = nParts - 1 then some (etagOf nParts) else fh.etags i
        let parts := (List.range nParts).map (fun i => (i + 1, etags2 i))
        let ev2 := S3Event.completeMPU fh.fullName parts
        match o.completeErr with
        | some e =>
          ⟨{ fh with
              etags := etags2
              mpuId := none
              nextWriteOffset := 0
              lastPartId := 0
              dirty := false },
            some e, [ev1, ev2, S3Event.abortMPU fh.fullName]⟩
        | none =>
          ⟨{ fh with
              etags := etags2
              mpuId := none
              nextWriteOffset := 0
              lastPartId := 0
              dirty := false },
            none, [ev1, ev2]⟩) := by
  cases hte : o.trailingErr with
  | some e => simp [FlushFile, hdirty, hparts, herr, hm, hbuf, hte]
  | none =>
    cases hce : o.completeErr with
    | some e => simp [FlushFile, hdirty, hparts, herr, hm, hbuf, hte, hce]
    | none => simp [FlushFile, hdirty, hparts, herr, hm, hbuf, hte, hce]

/-- C1 (amended): once the sticky `lastWriteError` is set on a file handle,
every subsequent WriteFile call returns that same error, and a FlushFile
call returns it provided at least one part has been emitted (the multipart
path); when no part was emitted, FlushFile takes the small-file PUT path
without consulting the sticky error (see the counterexample). -/
theorem c1_sticky_error (etagOf : Nat → Nat) (o : FlushS3) (fh : WFH) (e : OsError)
    (h : fh.lastWriteError = some e) :
    (∀ (offset : Int) (dataLen : Nat), (WriteFile etagOf fh offset dataLen).2 = some e) ∧
    (fh.dirty = true → fh.lastPartId ≠ 0 → (FlushFile etagOf o fh).err = some e) := by
  constructor
  · intro offset dataLen
    simp [WriteFile, h]
  · intro hdirty hparts
    cases hm : fh.mpuId with
    | none => simp [FlushFile, hdirty, hparts, h, hm]
    | some m => simp [FlushFile, hdirty, hparts, h, hm]

/-- Witness for `c1_sticky_error` at a concrete poisoned handle with two
emitted parts: the next write and the flush both return EINVAL. -/
theorem c1_sticky_error_witness :
    (WriteFile etagSpec poisonedFh 0 5).2 = some OsError.einval ∧
    (FlushFile etagSpec flushOk poisonedFh).err = some OsError.einval :=
  ⟨(c1_sticky_error etagSpec flushOk poisonedFh OsError.einval rfl).1 0 5,
    (c1_sticky_error etagSpec flushOk poisonedFh OsError.einval rfl).2 rfl (by decide)⟩

/-- C1 counterexample: in the scenario create("x"); write(0, 4 bytes);
write(2, 2 bytes), the second write returns EINVAL (and poisons the
handle), but the following flush does NOT return EINVAL: since no part was
ever emitted (`lastPartId = 0`), FlushFile runs flushSmallFile, PUTs the 4
buffered bytes and returns that PUT result (here: success), contradicting
the claim that every subsequent flush returns the sticky error. -/
theorem c1_counterexample :
    (WriteFile etagSpec (WriteFile etagSpec (freshHandle "x") 0 4).1 2 2).2 =
      some OsError.einval ∧
    (FlushFile etagSpec flushOk
        (WriteFile etagSpec (WriteFile etagSpec (freshHandle "x") 0 4).1 2 2).1).err = none ∧
    (FlushFile etagSpec flushOk
        (WriteFile etagSpec (WriteFile etagSpec (freshHandle "x") 0 4).1 2 2).1).events =
      [S3Event.putObject "x" 4] := by
  refine ⟨by decide, by decide, by decide⟩

/-- C3: a successful WriteFile of 6 MiB at offset 0 on a fresh handle
(crossing one 5 MiB buffer boundary) consumes all 6291456 bytes
(`nextWriteOffset` = 6291456) but sets the inode's in-memory size to
1048576, the length of the remaining `data` slice after the copy loop,
not to offset + total bytes written as the claim (and spec §4.6) states.
This evaluates the code at the failing input of the code_bug report. -/
theorem c3_size_from_remaining_slice :
    (WriteFile etagSpec (freshHandle "f") 0 6291456).2 = none ∧
    (WriteFile etagSpec (freshHandle "f") 0 6291456).1.nextWriteOffset = 6291456 ∧
    (WriteFile etagSpec (freshHandle "f") 0 6291456).1.size = 1048576 := by
  refine ⟨by decide, by decide, by decide⟩

/-- C2: after any sequence of successful sequential writes on a fresh
created handle, a successful flush that takes the multipart path (at least
one part emitted) calls CompleteMultipartUpload with exactly
`lastPartId + (1 if a trailing partial buffer exists else 0)` parts whose
part numbers are 1,2,...,nParts in ascending order with no gaps, each
paired with the ETag the backend returned for that part. -/
theorem c2_complete_parts (etagOf : Nat → Nat) (o : FlushS3) (key : String)
    (ws : List Nat) (fh : WFH)
    (hrun : runWrites etagOf (freshHandle key) ws = some fh)
    (hparts : fh.lastPartId ≠ 0)
    (hok : (FlushFile etagOf o fh).err = none) :
    S3Event.completeMPU key
        ((List.range (fh.lastPartId + if fh.bufLen.isSome then 1 else 0)).map
          (fun i => (i + 1, some (etagOf (i + 1))))) ∈ (FlushFile etagOf o fh).events := by
  obtain ⟨hname, hdirty, herr, hmpu, hetags⟩ :=
    runWrites_inv etagOf key ws (freshHandle key) fh (freshHandle_inv etagOf key) hrun
  have hm : fh.mpuId = some 1 := by rw [hmpu, if_neg hparts]
  cases hbuf : fh.bufLen with
  | none =>
    rw [flushFile_mpu_nobuf etagOf o fh hdirty hparts herr hm hbuf] at hok ⊢
    cases hce : o.completeErr with
    | some e => simp [hce] at hok
    | none =>
      have hmaps : (List.range fh.lastPartId).map (fun i => (i + 1, fh.etags i)) =
          (List.range fh.lastPartId).map (fun i => (i + 1, some (etagOf (i + 1)))) := by
        apply List.map_congr_left
        intro i hi
        rw [hetags i, if_pos (List.mem_range.mp hi)]
      simp [hce, hmaps, hname, hbuf]
  | some b =>
    rw [flushFile_mpu_buf etagOf o fh b hdirty hparts herr hm hbuf] at hok ⊢
    cases hte : o.trailingErr with
    | some e => simp [hte] at hok
    | none =>
      cases hce : o.completeErr with
      | some e => simp [hte, hce] at hok
      | none =>
        have hmaps : (List.range (fh.lastPartId + 1)).map
              (fun i => (i + 1,
                if i = fh.lastPartId + 1 - 1 then some (etagOf (fh.lastPartId + 1))
                else fh.etags i)) =
            (List.range (fh.lastPartId + 1)).map
              (fun i => (i + 1, some (etagOf (i + 1)))) := by
          apply List.map_congr_left
          intro i hi
          have hilt : i < fh.lastPartId + 1 := List.mem_range.mp hi
          by_cases hie : i = fh.lastPartId
          · simp [hie]
          · have : i < fh.lastPartId := by omega
            simp [hie, hetags i, this]
        have hn : fh.lastPartId + (if fh.bufLen.isSome then 1 else 0) =
            fh.lastPartId + 1 := by
          rw [hbuf]
          rfl
        simp only [hte, hce, hn]
        refine List.mem_cons_of_mem _ (List.mem_singleton.mpr ?_)
        rw [hname]
        exact congrArg _ hmaps.symm

/-- Witness for `c2_complete_parts`: create("k"); write(0, 12 MiB); flush
issues CompleteMultipartUpload with parts (1,e1),(2,e2),(3,e3). -/
theorem c2_complete_parts_witness :
    S3Event.completeMPU "k"
        ((List.range (fh12MiB.lastPartId + if fh12MiB.bufLen.isSome then 1 else 0)).map
          (fun i => (i + 1, some (etagSpec (i + 1))))) ∈
      (FlushFile etagSpec flushOk fh12MiB).events :=
  c2_complete_parts etagSpec flushOk "k" [12582912] fh12MiB (by rfl) (by decide) (by decide)


/-- C7: for a bucket containing exactly {d/, d/a, d/b}, opening the
directory d and reading it to the end yields the entries ., .., a, b in
that order with per-entry offsets 1, 2, 3, 4; the d/ marker object (whose
stripped name is empty) is omitted, and the listed entries come out sorted
ascending by name. -/
theorem c7_marker_dir_enumeration :
    readDirSeq rootAttrsM listBucketD 10 dhD 0 =
      [(".", 1), ("..", 2), ("a", 3), ("b", 4)] := by
  decide

/-- C6 counterexample: a ReadDir request at kernel offset 1 does not return
the synthetic `.` entry — it returns `..` (the code serves `.` at request
offset 0 and `..` at request offset 1; the synthetic entries carry entry
offsets 1 and 2, but those are the offsets stored in the reply, not the
request offsets at which they are served). -/
theorem c6_counterexample :
    (ReadDir rootAttrsM listBucketD dhD 1 ≠
      RDResult.entry ⟨"d", none, [(".", rootAttrsM)], none, 0⟩
        ⟨".", DirentType.dir, 2, 1⟩) ∧
    (ReadDir rootAttrsM listBucketD dhD 1 =
      RDResult.entry ⟨"d", none, [("..", rootAttrsM)], none, 0⟩
        ⟨"..", DirentType.dir, 2, 2⟩) := by
  refine ⟨by decide, by decide⟩

/-- C6 (amended): a ReadDir request at kernel offset 0 returns the
synthetic `.` entry with entry offset 1 (recording root attributes under
name "."), a request at offset 1 returns `..` with entry offset 2, and a
request at a higher offset indexes into the listed entries via
i = offset - base_offset - 2. -/
theorem c6_readdir_offsets (rootAttrs : AttrsM)
    (listFn : Option String → Except OsError ListResp) (dh : DirHandleM) :
    (ReadDir rootAttrs listFn dh 0 =
      RDResult.entry
        { dh with entries := none, nameToEntry := insertA "." rootAttrs dh.nameToEntry }
        ⟨".", DirentType.dir, 2, 1⟩) ∧
    (ReadDir rootAttrs listFn dh 1 =
      RDResult.entry { dh with nameToEntry := insertA ".." rootAttrs dh.nameToEntry }
        ⟨"..", DirentType.dir, 2, 2⟩) ∧
    (∀ (offset : Nat) (es : List Dirent), dh.entries = some es →
      dh.baseOffset + 2 ≤ offset →
      offset - dh.baseOffset - 2 < es.length →
      offset - dh.baseOffset - 2 ≤ 5000 →
      ReadDir rootAttrs listFn dh offset =
        RDResult.entry dh
          (es.getD (offset - dh.baseOffset - 2) (makeDirEntry "" DirentType.file))) := by
  refine ⟨rfl, rfl, ?_⟩
  intro offset es hent hge hlt hle
  have h0 : ¬ offset = 0 := by omega
  have h1 : ¬ offset = 1 := by omega
  have hneg : ¬ ((offset : Int) - (dh.baseOffset : Int) - 2 < 0) := by omega
  have hnc : ¬ (es.length ≤ offset - dh.baseOffset - 2) := by omega
  have hn5 : ¬ (5000 < offset - dh.baseOffset - 2) := by omega
  have hne : ¬ (offset - dh.baseOffset - 2 = es.length) := by omega
  have hng : ¬ (es.length < offset - dh.baseOffset - 2) := by omega
  simp [ReadDir, h0, h1, hneg, hent, hnc, hn5, hne, hng]

/-- Witness for `c6_readdir_offsets` on a handle holding the page
[a (offset 3), b (offset 4)] of directory d: request offset 3 returns the
listed entry b at index 3 - 0 - 2 = 1. -/
theorem c6_readdir_offsets_witness :
    ReadDir rootAttrsM listBucketD
        ⟨"d", some [⟨"a", DirentType.file, 2, 3⟩, ⟨"b", DirentType.file, 2, 4⟩], [], none, 0⟩ 3 =
      RDResult.entry
        ⟨"d", some [⟨"a", DirentType.file, 2, 3⟩, ⟨"b", DirentType.file, 2, 4⟩], [], none, 0⟩
        ⟨"b", DirentType.file, 2, 4⟩ :=
  (c6_readdir_offsets rootAttrsM listBucketD
      ⟨"d", some [⟨"a", DirentType.file, 2, 3⟩, ⟨"b", DirentType.file, 2, 4⟩], [], none, 0⟩).2.2
    3 [⟨"a", DirentType.file, 2, 3⟩, ⟨"b", DirentType.file, 2, 4⟩]
    rfl (by decide) (by decide) (by decide)


/-- C8: isEmptyDir classifies the LIST(prefix = p + "/", delimiter = "/",
MaxKeys 2) response exactly as claimed: at least one common prefix or at
least two contents gives (is_dir = true, ENOTEMPTY); exactly one content
whose key equals p + "/" gives (is_dir = true, ok); exactly one content
whose key differs gives (is_dir = true, ENOTEMPTY); an empty result gives
(is_dir = false, ok). -/
theorem c8_isEmptyDir_classification (p : String) (resp : ListResp) :
    (resp.commonPfxs ≠ [] ∨ 2 ≤ resp.contents.length →
      isEmptyDir p resp = (true, some OsError.enotempty)) ∧
    (∀ o, resp.commonPfxs = [] → resp.contents = [o] → o.key = p ++ "/" →
      isEmptyDir p resp = (true, none)) ∧
    (∀ o, resp.commonPfxs = [] → resp.contents = [o] → o.key ≠ p ++ "/" →
      isEmptyDir p resp = (true, some OsError.enotempty)) ∧
    (resp.commonPfxs = [] → resp.contents = [] → isEmptyDir p resp = (false, none)) := by
  refine ⟨?_, ?_, ?_, ?_⟩
  · intro h
    have hc : 0 < resp.commonPfxs.length ∨ 1 < resp.contents.length := by
      rcases h with h | h
      · exact Or.inl (List.length_pos.mpr h)
      · exact Or.inr (by omega)
    simp [isEmptyDir, hc]
  · intro o hcp hco hkey
    simp [isEmptyDir, hcp, hco, hkey]
  · intro o hcp hco hkey
    simp [isEmptyDir, hcp, hco, hkey]
  · intro hcp hco
    simp [isEmptyDir, hcp, hco]

/-- Witness for `c8_isEmptyDir_classification`: the four cases evaluated on
concrete responses for p = "d". -/
theorem c8_isEmptyDir_classification_witness :
    isEmptyDir "d" ⟨["d/x/"], [], false, none⟩ = (true, some OsError.enotempty) ∧
    isEmptyDir "d" ⟨[], [⟨"d/", 0, 0⟩], false, none⟩ = (true, none) ∧
    isEmptyDir "d" ⟨[], [⟨"d/a", 1, 0⟩], false, none⟩ = (true, some OsError.enotempty) ∧
    isEmptyDir "d" ⟨[], [], false, none⟩ = (false, none) :=
  ⟨(c8_isEmptyDir_classification "d" ⟨["d/x/"], [], false, none⟩).1 (Or.inl (by decide)),
    (c8_isEmptyDir_classification "d" ⟨[], [⟨"d/", 0, 0⟩], false, none⟩).2.1
      ⟨"d/", 0, 0⟩ rfl rfl (by decide),
    (c8_isEmptyDir_classification "d" ⟨[], [⟨"d/a", 1, 0⟩], false, none⟩).2.2.1
      ⟨"d/a", 1, 0⟩ rfl rfl (by decide),
    (c8_isEmptyDir_classification "d" ⟨[], [], false, none⟩).2.2.2 rfl rfl⟩


/-- C4: LookUpInodeMaybeDir returns NotFound exactly when both probes have
come back negative (HEAD returned NotFound and the LIST under key + "/"
returned empty, in either arrival order); a single negative completion only
sets the notFound flag and keeps waiting in select; a successful HEAD
yields a file inode carrying the backend size and timestamps, and a
non-empty LIST yields a directory inode with root-default attributes. -/
theorem c4_lookup_state_machine (name fullName : String) :
    (∀ (a b : LookupEvent) (evs : List LookupEvent),
        isObjectEvent a = true → isDirEvent b = true →
        (evs = [a, b] ∨ evs = [b, a]) →
        (runLookup name fullName evs = LookOutcome.returned none (some OsError.enoent) ↔
          (a = LookupEvent.objectErr OsError.enoent ∧
            ∃ r, b = LookupEvent.dirResp r ∧ r.commonPfxs = [] ∧ r.contents = []))) ∧
    (∀ e, (e = LookupEvent.objectErr OsError.enoent ∨
          (∃ r, e = LookupEvent.dirResp r ∧ r.commonPfxs = [] ∧ r.contents = [])) →
        lookupStep name fullName ⟨false, none⟩ e = Sum.inl ⟨true, none⟩) ∧
    (∀ size mtime evs,
        runLookup name fullName (LookupEvent.objectResp size mtime :: evs) =
          LookOutcome.returned (some (newFileInode name fullName size mtime)) none) ∧
    (∀ r evs, r.commonPfxs.length ≠ 0 ∨ r.contents.length ≠ 0 →
        runLookup name fullName (LookupEvent.dirResp r :: evs) =
          LookOutcome.returned (some (newDirInode name fullName)) none) := by
  refine ⟨?_, ?_, ?_, ?_⟩
  · intro a b evs ha hb hevs
    constructor
    · intro h
      cases a with
      | dirResp r => exact absurd ha (by simp [isObjectEvent])
      | dirErr e => exact absurd ha (by simp [isObjectEvent])
      | objectResp s m =>
        exfalso
        cases b with
        | objectResp s2 m2 => exact absurd hb (by simp [isDirEvent])
        | objectErr e2 => exact absurd hb (by simp [isDirEvent])
        | dirResp r =>
          rcases hevs with rfl | rfl
          · simp [runLookup, runLookupFrom, lookupStep] at h
          · by_cases hr : ¬r.commonPfxs = [] ∨ ¬r.contents = [] <;>
              simp [runLookup, runLookupFrom, lookupStep, hr] at h
        | dirErr e2 =>
          rcases hevs with rfl | rfl <;>
            simp [runLookup, runLookupFrom, lookupStep] at h
      | objectErr ea =>
        cases b with
        | objectResp s2 m2 => exact absurd hb (by simp [isDirEvent])
        | objectErr e2 => exact absurd hb (by simp [isDirEvent])
        | dirErr e2 =>
          exfalso
          by_cases hea : ea = OsError.enoent
          · subst hea
            rcases hevs with rfl | rfl <;>
              simp [runLookup, runLookupFrom, lookupStep] at h
          · rcases hevs with rfl | rfl <;>
              simp [runLookup, runLookupFrom, lookupStep, hea] at h
        | dirResp r =>
          by_cases hea : ea = OsError.enoent
          · subst hea
            by_cases hr : ¬r.commonPfxs = [] ∨ ¬r.contents = []
            · exfalso
              rcases hevs with rfl | rfl <;>
                simp [runLookup, runLookupFrom, lookupStep, hr] at h
            · push_neg at hr
              exact ⟨rfl, r, rfl, hr.1, hr.2⟩
          · exfalso
            by_cases hr : ¬r.commonPfxs = [] ∨ ¬r.contents = [] <;>
              rcases hevs with rfl | rfl <;>
                simp [runLookup, runLookupFrom, lookupStep, hea, hr] at h
    · rintro ⟨rfl, r, rfl, hcp, hco⟩
      rcases hevs with rfl | rfl <;>
        simp [runLookup, runLookupFrom, lookupStep, hcp, hco]
  · intro e he
    rcases he with rfl | ⟨r, rfl, hcp, hco⟩
    · simp [lookupStep]
    · simp [lookupStep, hcp, hco]
  · intro size mtime evs
    simp [runLookup, runLookupFrom, lookupStep]
  · intro r evs hne
    have hne2 : ¬r.commonPfxs = [] ∨ ¬r.contents = [] := by
      rcases hne with h | h
      · exact Or.inl (fun hh => h (by simp [hh]))
      · exact Or.inr (fun hh => h (by simp [hh]))
    simp [runLookup, runLookupFrom, lookupStep, hne2]

/-- Witness for `c4_lookup_state_machine`: HEAD NotFound followed by an
empty LIST yields NotFound. -/
theorem c4_lookup_witness :
    runLookup "c" "p/c"
        [LookupEvent.objectErr OsError.enoent,
          LookupEvent.dirResp ⟨[], [], false, none⟩] =
      LookOutcome.returned none (some OsError.enoent) :=
  ((c4_lookup_state_machine "c" "p/c").1 (LookupEvent.objectErr OsError.enoent)
      (LookupEvent.dirResp ⟨[], [], false, none⟩) _ rfl rfl (Or.inl rfl)).mpr
    ⟨rfl, ⟨[], [], false, none⟩, rfl, rfl, rfl⟩


lemma mpuCopyPartsAux_no_delete (o : RenameS3) (dst : String) :
    ∀ (n part : Nat) (err : Option OsError) (k : String),
      S3Event.deleteObject k ∉ (mpuCopyPartsAux o dst n part err).2 := by
  intro n
  induction n with
  | zero => intro part err k; simp [mpuCopyPartsAux]
  | succ m ih =>
    intro part err k
    simp only [mpuCopyPartsAux, List.mem_cons]
    rintro (h | h)
    · exact absurd h (by simp)
    · exact ih (part + 1) _ k h

lemma copyMultipart_no_delete (o : RenameS3) (size : Int) (dst k : String) :
    S3Event.deleteObject k ∉ (copyObjectMultipart o size dst).2 := by
  intro hmem
  unfold copyObjectMultipart at hmem
  rcases hmc : o.mpuCreate with e | n <;> simp only [hmc] at hmem
  · simp at hmem
  · rcases hpc : (mpuCopyParts o (sizeToParts size) dst).1 with _ | e <;>
      simp only [hpc] at hmem
    · rcases hce : o.completeErr with _ | e <;> simp only [hce] at hmem <;>
        · simp only [List.mem_cons, List.mem_append, List.mem_singleton] at hmem
          rcases hmem with (h | h) | h
          · exact absurd h (by simp)
          · exact mpuCopyPartsAux_no_delete o dst _ _ _ k h
          · exact absurd h (by simp)
    · simp only [List.mem_cons] at hmem
      rcases hmem with h | h
      · exact absurd h (by simp)
      · exact mpuCopyPartsAux_no_delete o dst _ _ _ k h

lemma copyMaybe_no_delete (o : RenameS3) (bucket : String) (size0 : Int)
    (src dst k : String) :
    S3Event.deleteObject k ∉ (copyObjectMaybeMultipart o bucket size0 src dst).2 := by
  intro hmem
  unfold copyObjectMaybeMultipart at hmem
  by_cases hs : size0 = -1 <;> simp only [hs, if_pos, if_neg, if_true, if_false] at hmem
  · rcases hh : o.headFrom with e | n <;> simp only [hh] at hmem
    · simp at hmem
    · by_cases hgt : COPY_PART_SIZE < (n : Int) <;> simp only [hgt, if_true, if_false] at hmem
      · simp only [List.mem_append, List.mem_singleton] at hmem
        rcases hmem with h | h
        · exact absurd h (by simp)
        · exact copyMultipart_no_delete o _ _ k h
      · simp at hmem
  · by_cases hgt : COPY_PART_SIZE < size0 <;> simp only [hgt, if_true, if_false] at hmem
    · simp only [List.mem_append, List.nil_append] at hmem
      exact copyMultipart_no_delete o _ _ k hmem
    · simp at hmem

end GoofysModel

namespace GoofysModel

/-- C9: every Rename classifies both the source and the destination (the
two emptiness-probe LISTs, which are the first two backend calls) before
any mutating backend call is issued; if classification fails (including a
non-empty source directory) or the copy step fails, no DeleteObject is
issued; a DeleteObject occurs only as the very last call, only after the
copy step returned no error, and only on the (possibly slash-suffixed)
source key. -/
theorem c9_rename_order (o : RenameS3) (bucket f t : String) :
    ((Rename o bucket f t).2.head? = some (S3Event.listObjects (f ++ "/"))) ∧
    (∀ ev, ev ∈ (Rename o bucket f t).2 → isMutation ev = true →
      (Rename o bucket f t).2.get? 0 = some (S3Event.listObjects (f ++ "/")) ∧
      (Rename o bucket f t).2.get? 1 = some (S3Event.listObjects (t ++ "/"))) ∧
    (∀ k, S3Event.deleteObject k ∈ (Rename o bucket f t).2 →
      ∃ respF respT,
        o.listFrom = Except.ok respF ∧ (isEmptyDir f respF).2 = none ∧
        o.listTo = Except.ok respT ∧ (isEmptyDir t respT).2 = none ∧
        (copyObjectMaybeMultipart o bucket
            (if (isEmptyDir f respF).1 then 0 else -1)
            (if (isEmptyDir f respF).1 then f ++ "/" else f)
            (if (isEmptyDir f respF).1 then t ++ "/" else t)).1 = none ∧
        k = (if (isEmptyDir f respF).1 then f ++ "/" else f) ∧
        (Rename o bucket f t).1 = o.deleteErr ∧
        (Rename o bucket f t).2.getLast? = some (S3Event.deleteObject k)) := by
  rcases hLF : o.listFrom with e | respF
  · have hR : Rename o bucket f t = (some e, [S3Event.listObjects (f ++ "/")]) := by
      simp [Rename, hLF]
    rw [hR]
    refine ⟨rfl, ?_, ?_⟩
    · intro ev hev hmu
      simp only [List.mem_singleton] at hev
      subst hev
      exact absurd hmu (by simp [isMutation])
    · intro k hk
      simp at hk
  · rcases hcF : (isEmptyDir f respF).2 with _ | e
    · rcases hLT : o.listTo with e | respT
      · have hR : Rename o bucket f t =
            (some e, [S3Event.listObjects (f ++ "/"), S3Event.listObjects (t ++ "/")]) := by
          simp [Rename, hLF, hcF, hLT]
        rw [hR]
        refine ⟨rfl, fun ev hev hmu => ⟨rfl, rfl⟩, ?_⟩
        intro k hk
        simp at hk
      · rcases hcT : (isEmptyDir t respT).2 with _ | e
        · cases hb1 : (isEmptyDir f respF).1 <;> cases hb2 : (isEmptyDir t respT).1
          · -- file → file
            rcases hcp : (copyObjectMaybeMultipart o bucket (-1) f t).1 with _ | e
            · have hR : Rename o bucket f t =
                  (o.deleteErr, S3Event.listObjects (f ++ "/") :: S3Event.listObjects (t ++ "/") ::
                    ((copyObjectMaybeMultipart o bucket (-1) f t).2 ++ [S3Event.deleteObject f])) := by
                simp [Rename, hLF, hcF, hLT, hcT, hb1, hb2, hcp]
              rw [hR]
              refine ⟨rfl, fun ev hev hmu => ⟨rfl, rfl⟩, ?_⟩
              intro k hk
              simp only [List.mem_cons, List.mem_append, List.mem_singleton] at hk
              rcases hk with h | h | h | h | h
              · exact absurd h (by simp)
              · exact absurd h (by simp)
              · exact absurd h (copyMaybe_no_delete o bucket (-1) f t k)
              · have hkf : k = f := by injection h
                refine ⟨respF, respT, rfl, hcF, rfl, hcT, ?_, ?_, rfl, ?_⟩
                · simp [hb1, hcp]
                · simp only [hb1, Bool.false_eq_true, if_false]
                  exact hkf
                · rw [hkf]
                  have he : (S3Event.listObjects (f ++ "/") :: S3Event.listObjects (t ++ "/") ::
                      ((copyObjectMaybeMultipart o bucket (-1) f t).2 ++ [S3Event.deleteObject f])) =
                      (S3Event.listObjects (f ++ "/") :: S3Event.listObjects (t ++ "/") ::
                        (copyObjectMaybeMultipart o bucket (-1) f t).2) ++
                        S3Event.deleteObject f :: [] := by
                    simp
                  rw [he, List.getLast?_append_cons]
                  rfl
              · simp at h
            · have hR : Rename o bucket f t =
                  (some e, S3Event.listObjects (f ++ "/") :: S3Event.listObjects (t ++ "/") ::
                    (copyObjectMaybeMultipart o bucket (-1) f t).2) := by
                simp [Rename, hLF, hcF, hLT, hcT, hb1, hb2, hcp]
              rw [hR]
              refine ⟨rfl, fun ev hev hmu => ⟨rfl, rfl⟩, ?_⟩
              intro k hk
              simp only [List.mem_cons] at hk
              rcases hk with h | h | h
              · exact absurd h (by simp)
              · exact absurd h (by simp)
              · exact absurd h (copyMaybe_no_delete o bucket (-1) f t k)
          · -- file → dir: EISDIR
            have hR : Rename o bucket f t =
                (some OsError.eisdir,
                  [S3Event.listObjects (f ++ "/"), S3Event.listObjects (t ++ "/")]) := by
              simp [Rename, hLF, hcF, hLT, hcT, hb1, hb2]
            rw [hR]
            refine ⟨rfl, fun ev hev hmu => ⟨rfl, rfl⟩, ?_⟩
            intro k hk
            simp at hk
          · -- dir → file: ENOTDIR
            have hR : Rename o bucket f t =
                (some OsError.enotdir,
                  [S3Event.listObjects (f ++ "/"), S3Event.listObjects (t ++ "/")]) := by
              simp [Rename, hLF, hcF, hLT, hcT, hb1, hb2]
            rw [hR]
            refine ⟨rfl, fun ev hev hmu => ⟨rfl, rfl⟩, ?_⟩
            intro k hk
            simp at hk
          · -- dir → dir
            rcases hcp : (copyObjectMaybeMultipart o bucket 0 (f ++ "/") (t ++ "/")).1 with _ | e
            · have hR : Rename o bucket f t =
                  (o.deleteErr, S3Event.listObjects (f ++ "/") :: S3Event.listObjects (t ++ "/") ::
                    ((copyObjectMaybeMultipart o bucket 0 (f ++ "/") (t ++ "/")).2 ++
                      [S3Event.deleteObject (f ++ "/")])) := by
                simp [Rename, hLF, hcF, hLT, hcT, hb1, hb2, hcp]
              rw [hR]
              refine ⟨rfl, fun ev hev hmu => ⟨rfl, rfl⟩, ?_⟩
              intro k hk
              simp only [List.mem_cons, List.mem_append, List.mem_singleton] at hk
              rcases hk with h | h | h | h | h
              · exact absurd h (by simp)
              · exact absurd h (by simp)
              · exact absurd h (copyMaybe_no_delete o bucket 0 (f ++ "/") (t ++ "/") k)
              · have hkf : k = f ++ "/" := by injection h
                refine ⟨respF, respT, rfl, hcF, rfl, hcT, ?_, ?_, rfl, ?_⟩
                · simp [hb1, hcp]
                · simp only [hb1, if_true]
                  exact hkf
                · rw [hkf]
                  have he : (S3Event.listObjects (f ++ "/") :: S3Event.listObjects (t ++ "/") ::
                      ((copyObjectMaybeMultipart o bucket 0 (f ++ "/") (t ++ "/")).2 ++
                        [S3Event.deleteObject (f ++ "/")])) =
                      (S3Event.listObjects (f ++ "/") :: S3Event.listObjects (t ++ "/") ::
                        (copyObjectMaybeMultipart o bucket 0 (f ++ "/") (t ++ "/")).2) ++
                        S3Event.deleteObject (f ++ "/") :: [] := by
                    simp
                  rw [he, List.getLast?_append_cons]
                  rfl
              · simp at h
            · have hR : Rename o bucket f t =
                  (some e, S3Event.listObjects (f ++ "/") :: S3Event.listObjects (t ++ "/") ::
                    (copyObjectMaybeMultipart o bucket 0 (f ++ "/") (t ++ "/")).2) := by
                simp [Rename, hLF, hcF, hLT, hcT, hb1, hb2, hcp]
              rw [hR]
              refine ⟨rfl, fun ev hev hmu => ⟨rfl, rfl⟩, ?_⟩
              intro k hk
              simp only [List.mem_cons] at hk
              rcases hk with h | h | h
              · exact absurd h (by simp)
              · exact absurd h (by simp)
              · exact absurd h (copyMaybe_no_delete o bucket 0 (f ++ "/") (t ++ "/") k)
        · have hR : Rename o bucket f t =
              (some e, [S3Event.listObjects (f ++ "/"), S3Event.listObjects (t ++ "/")]) := by
            simp [Rename, hLF, hcF, hLT, hcT]
          rw [hR]
          refine ⟨rfl, fun ev hev hmu => ⟨rfl, rfl⟩, ?_⟩
          intro k hk
          simp at hk
    · have hR : Rename o bucket f t = (some e, [S3Event.listObjects (f ++ "/")]) := by
        simp [Rename, hLF, hcF]
      rw [hR]
      refine ⟨rfl, ?_, ?_⟩
      · intro ev hev hmu
        simp only [List.mem_singleton] at hev
        subst hev
        exact absurd hmu (by simp [isMutation])
      · intro k hk
        simp at hk


/-- Witness for `c9_rename_order`: a successful file rename of "a" to "c";
the trace contains the DeleteObject mutation and starts with the two
classification probes. -/
theorem c9_rename_order_witness :
    (Rename renameOkOracle "b" "a" "c").2.get? 0 =
      some (S3Event.listObjects ("a" ++ "/")) ∧
    (Rename renameOkOracle "b" "a" "c").2.get? 1 =
      some (S3Event.listObjects ("c" ++ "/")) :=
  (c9_rename_order renameOkOracle "b" "a" "c").2.1
    (S3Event.deleteObject "a") (by decide) (by decide)


lemma findA_eraseA {κ α : Type} [DecidableEq κ] (k : κ) :
    ∀ l : List (κ × α), findA k (eraseA k l) = none := by
  intro l
  induction l with
  | nil => rfl
  | cons p rest ih =>
    by_cases h : p.1 = k
    · simp [eraseA, h, ih]
    · simp [eraseA, findA, h, ih]

lemma findA_insertA {κ α : Type} [DecidableEq κ] (k : κ) (v : α) (l : List (κ × α)) :
    findA k (insertA k v l) = some v := by
  simp [insertA, findA]

/-- C5: the claim fails on the code — after a successful MkDir(root, "d")
on a fresh mount followed by LookUpInode(root, "d") (over a bucket whose
only key is the marker "d/"), the two operations resolve to two distinct
live inode IDs (2 and 3) for the directory d.  MkDir inserts its inode
(full name "d/") only into the ID index, never into inodesCache (compare
CreateFile, goofys.go:740-741), and the lookup probes the cache under "d",
so it misses and allocates a second inode.  This theorem evaluates the
code at the failing input of the code_bug report. -/
theorem c5_mkdir_lookup_two_inode_ids :
    MkDirOp freshFS 1 "d" none = some (Except.ok (c5fs1, 2)) ∧
    LookUpInodeOp c5fs1 1 "d" [] c5Events = some (Except.ok (c5fs2, 3)) ∧
    findA 2 c5fs2.inodes = some ⟨2, "d", "d/", rootAttrsM, 1⟩ ∧
    findA 3 c5fs2.inodes = some ⟨3, "d", "d", rootAttrsM, 1⟩ ∧
    findA "d" c5fs2.inodesCache = some 3 ∧
    findA "d/" c5fs2.inodesCache = none := by
  refine ⟨rfl, rfl, by decide, by decide, by decide, by decide⟩

/-- C10: DeRef(n) panics on its guard exactly when n exceeds the current
refcount r (never wrapping the unsigned count below zero); under n ≤ r it
leaves refcount r - n and reports stale exactly when the result is 0, at
which point ForgetInode removes the inode from both the ID index and the
full-name index (and otherwise keeps it, with the decremented count). -/
theorem c10_deref_forget (fs : FS) (id n : Nat) (ino : InodeM)
    (hfind : findA id fs.inodes = some ino) :
    (ino.refcnt < n → DeRef ino n = none ∧ ForgetInode fs id n = none) ∧
    (n ≤ ino.refcnt →
      DeRef ino n = some ({ ino with refcnt := ino.refcnt - n }, ino.refcnt - n == 0) ∧
      (∀ fs2, ForgetInode fs id n = some fs2 →
        (ino.refcnt - n = 0 →
          findA id fs2.inodes = none ∧ findA ino.fullName fs2.inodesCache = none) ∧
        (0 < ino.refcnt - n →
          findA id fs2.inodes = some { ino with refcnt := ino.refcnt - n }))) := by
  constructor
  · intro hlt
    constructor
    · simp [DeRef, hlt]
    · simp [ForgetInode, hfind, DeRef, hlt]
  · intro hle
    have hnlt : ¬ ino.refcnt < n := by omega
    constructor
    · simp [DeRef, hnlt]
    · intro fs2 hf
      simp only [ForgetInode, hfind, DeRef, hnlt, if_neg, if_false] at hf
      by_cases hz : ino.refcnt - n = 0
      · refine ⟨fun _ => ?_, fun hpos => absurd hz (by omega)⟩
        simp only [hz] at hf
        simp only [beq_self_eq_true, if_true] at hf
        cases hf
        exact ⟨findA_eraseA id fs.inodes, findA_eraseA ino.fullName fs.inodesCache⟩
      · refine ⟨fun h0 => absurd h0 hz, fun _ => ?_⟩
        have hb : (ino.refcnt - n == 0) = false := by
          simp [hz]
        simp only [hb, if_false] at hf
        cases hf
        exact findA_insertA id _ fs.inodes

/-- Witness for `c10_deref_forget`: forgetting the root inode of a fresh
mount with n = 1 drops it from both indices. -/
theorem c10_deref_forget_witness :
    DeRef ⟨1, "", "", rootAttrsM, 1⟩ 1 =
      some (⟨1, "", "", rootAttrsM, 0⟩, 1 - 1 == 0) ∧
    (findA 1 (⟨2, [], []⟩ : FS).inodes = none ∧
      findA "" (⟨2, [], []⟩ : FS).inodesCache = none) :=
  ⟨((c10_deref_forget freshFS 1 1 ⟨1, "", "", rootAttrsM, 1⟩ rfl).2 (by decide)).1,
    (((c10_deref_forget freshFS 1 1 ⟨1, "", "", rootAttrsM, 1⟩ rfl).2 (by decide)).2
      ⟨2, [], []⟩ (by decide)).1 (by decide)⟩

end GoofysModel
